import Mathlib

/-!
Verification development for the NodeRED-PostgreSQL-AdminAuth repository.

The repository exposes an admin-auth callback pair `users`/`authenticate`
backed by a `nodered_users` table (columns: `username` unique, `password`
nullable TEXT, `permissions` TEXT).  Two behavioural variants are embedded:

* `Bcrypt` — `customAuth.js`: bcrypt with a process-wide static salt, pooled
  connection.
* `Aes` — the AES-256-CBC variants (pooled and single-client copies are
  logically identical and are embedded once).

The store is a list of rows; each `pool.query`/`client.query` round trip and
each fallible crypto call carries an explicit fault flag, so that the
`catch { return null }` paths of the source are part of the model.  The
cryptographic primitives are idealised faithfully to the properties the code
relies on: a bcrypt digest is deterministic given the per-call random salt,
embeds that salt, is never the empty string, and verification recomputes the
digest of the candidate under the embedded salt; an AES-256-CBC ciphertext
under a fixed key and IV is deterministic, injective in the plaintext, and
never empty.
-/

/-- Result payload `{ username, permissions }` returned to the host. -/
structure UserInfo where
  username : String
  permissions : String
deriving DecidableEq

/-- A row of the `nodered_users` table: `password` is a nullable TEXT column
(`none` models SQL NULL). -/
structure Row where
  username : String
  password : Option String
  permissions : String
deriving DecidableEq

/-- The credential store: rows of `nodered_users` in table order. -/
abbrev Store := List Row

/-- `SELECT * FROM nodered_users WHERE username=$1` followed by `rows[0]`:
the first row whose `username` column equals the parameter. -/
def selectUser (st : Store) (username : String) : Option Row :=
  st.find? fun r => decide (r.username = username)

/-- `UPDATE nodered_users SET password=$1 WHERE username=$2`: every row whose
`username` matches gets the new secret; all other fields are untouched. -/
def updateUser (st : Store) (username newSecret : String) : Store :=
  st.map fun r =>
    if r.username = username then ⟨r.username, some newSecret, r.permissions⟩ else r

/-- JavaScript truthiness test `!user.password` on a nullable TEXT column:
true for SQL NULL and for the empty string. -/
def isFalsy : Option String → Bool
  | none => true
  | some s => decide (s = "")

/-- `users(username)` (identical in every variant, customAuth.js lines 80-98):
one SELECT of `username, permissions`; on a row, return both fields; on no row
or on a query fault (`fault = true`, the catch block) return null.  The store
is returned unchanged: the function issues no write. -/
def users (fault : Bool) (st : Store) (username : String) :
    Option UserInfo × Store :=
  if fault then (none, st)
  else
    match selectUser st username with
    | some user => (some ⟨user.username, user.permissions⟩, st)
    | none => (none, st)

namespace Bcrypt

/-- Idealised `bcrypt.hash(input, salt)`: a digest that embeds the per-call
random salt (`rsalt`, drawn by `bcrypt.genSalt`) and determines the input.
Encoded as `'B'`, the salt in unary, `'$'`, then the input characters. -/
def bcryptHash (rsalt : Nat) (input : String) : String :=
  ⟨'B' :: (List.replicate rsalt 'x' ++ '$' :: input.data)⟩

/-- Idealised `bcrypt.compare(input, h)`: parse the salt embedded in `h`,
recompute the digest of `input` under it and compare. -/
def bcryptVerify (input h : String) : Bool :=
  match h.data with
  | 'B' :: rest =>
    match rest.dropWhile fun c => decide (c = 'x') with
    | '$' :: tail => decide (input.data = tail)
    | _ => false
  | _ => false

/-- `hashPassword` (customAuth.js lines 33-43): concatenate the static salt,
then bcrypt-hash under a freshly generated random salt `rsalt`. -/
def hashPassword (ssalt : String) (rsalt : Nat) (plainString : String) : String :=
  bcryptHash rsalt (plainString ++ ssalt)

/-- `comparePassword` (customAuth.js lines 51-60): concatenate the static salt
and run `bcrypt.compare` against the stored hash. -/
def comparePassword (ssalt : String) (plainString hash : String) : Bool :=
  bcryptVerify (plainString ++ ssalt) hash

/-- Fault flags for the fallible steps of `authenticate`, in source order:
the first SELECT, the `hashPassword` call, the UPDATE, the re-SELECT, and the
`comparePassword` call.  A `true` flag means the step throws and control
transfers to the catch block. -/
structure Faults where
  q1 : Bool
  hashFail : Bool
  q2 : Bool
  q3 : Bool
  cmp : Bool
deriving DecidableEq

/-- The fault-free schedule: every external step succeeds. -/
def noFaults : Faults := ⟨false, false, false, false, false⟩

/-- `authenticate(username, password)` of customAuth.js (lines 106-149).
SELECT the user (line 109); if no row, null (line 143).  If the `password`
column is falsy (line 117), hash the candidate (line 119), UPDATE the row
(line 120), re-SELECT (line 126) and return the re-fetched
username/permissions.  Otherwise compare against the stored hash (line 135)
and return the row's username/permissions on a match, null on a mismatch.
Any step's fault lands in the catch block (lines 145-148) and yields null,
the store keeping whatever writes had already committed. -/
def authenticate (ssalt : String) (fs : Faults) (rsalt : Nat) (st : Store)
    (username password : String) : Option UserInfo × Store :=
  if fs.q1 then (none, st)
  else
    match selectUser st username with
    | some user =>
      if isFalsy user.password then
        if fs.hashFail then (none, st)
        else if fs.q2 then (none, st)
        else if fs.q3 then
          (none, updateUser st username (hashPassword ssalt rsalt password))
        else
          match selectUser (updateUser st username (hashPassword ssalt rsalt password))
              username with
          | some updatedUser =>
            (some ⟨updatedUser.username, updatedUser.permissions⟩,
              updateUser st username (hashPassword ssalt rsalt password))
          | none => (none, updateUser st username (hashPassword ssalt rsalt password))
      else if fs.cmp then (none, st)
      else if comparePassword ssalt password (user.password.getD "") then
        (some ⟨user.username, user.permissions⟩, st)
      else (none, st)
    | none => (none, st)

end Bcrypt

namespace Aes

/-- Idealised AES-256-CBC encryption under a fixed key and IV (`encrypt`,
lines 33-40 of the pooled AES variant): deterministic, injective in the
plaintext for a fixed key/IV, never empty.  Encoded as a tag, the key, the
IV and the plaintext with separators. -/
def encrypt (key iv plainString : String) : String :=
  ⟨('A' :: 'E' :: 'S' :: ';' :: key.data) ++ (';' :: iv.data) ++ (';' :: plainString.data)⟩

/-- The verification step of the AES variant (line 109 of the pooled copy):
re-encrypt the candidate and compare the ciphertext strings directly. -/
def verify (key iv candidate stored : String) : Bool :=
  decide (stored = encrypt key iv candidate)

/-- Fault flags for the AES `authenticate`: first SELECT, UPDATE, re-SELECT.
(`encrypt` runs on fixed-at-startup key material and is pure.) -/
structure Faults where
  q1 : Bool
  q2 : Bool
  q3 : Bool
deriving DecidableEq

/-- The fault-free schedule. -/
def noFaults : Faults := ⟨false, false, false⟩

/-- `authenticate(username, password)` of the AES variants (pooled copy
lines 76-123; the single-client copy resolves the same values).  Encrypt the
candidate first (line 79), SELECT the user; if the `password` column is falsy,
UPDATE it to the ciphertext and re-SELECT; otherwise grant exactly when the
stored string equals the ciphertext.  Faults land in the catch block and
resolve to null. -/
def authenticate (key iv : String) (fs : Faults) (st : Store)
    (username password : String) : Option UserInfo × Store :=
  if fs.q1 then (none, st)
  else
    match selectUser st username with
    | some user =>
      if isFalsy user.password then
        if fs.q2 then (none, st)
        else if fs.q3 then (none, updateUser st username (encrypt key iv password))
        else
          match selectUser (updateUser st username (encrypt key iv password)) username with
          | some updatedUser =>
            (some ⟨updatedUser.username, updatedUser.permissions⟩,
              updateUser st username (encrypt key iv password))
          | none => (none, updateUser st username (encrypt key iv password))
      else if user.password.getD "" = encrypt key iv password then
        (some ⟨user.username, user.permissions⟩, st)
      else (none, st)
    | none => (none, st)

end Aes

/-! ### Helper lemmas -/

theorem selectUser_username {st : Store} {u : String} {r : Row}
    (h : selectUser st u = some r) : r.username = u := by
  unfold selectUser at h
  have h2 := List.find?_some h
  exact of_decide_eq_true h2

theorem selectUser_mem {st : Store} {u : String} {r : Row}
    (h : selectUser st u = some r) : r ∈ st := by
  unfold selectUser at h
  exact List.mem_of_find?_eq_some h

theorem selectUser_updateUser (st : Store) (u s : String) :
    selectUser (updateUser st u s) u =
      (selectUser st u).map fun r => (⟨r.username, some s, r.permissions⟩ : Row) := by
  induction st with
  | nil => rfl
  | cons r t ih =>
    by_cases h : r.username = u
    · simp [selectUser, updateUser, List.find?_cons, h]
    · simp only [selectUser, updateUser, List.map_cons] at ih ⊢
      rw [if_neg h, List.find?_cons, List.find?_cons]
      simp only [h, decide_eq_false (fun hc => h hc)]
      exact ih

theorem dropWhile_unary (n : Nat) (l : List Char) :
    List.dropWhile (fun c => decide (c = 'x')) (List.replicate n 'x' ++ '$' :: l) =
      '$' :: l := by
  induction n with
  | zero => rfl
  | succ k ih => rw [List.replicate_succ]; exact ih

theorem bcryptVerify_bcryptHash (s : String) (r : Nat) (t : String) :
    Bcrypt.bcryptVerify s (Bcrypt.bcryptHash r t) = decide (s = t) := by
  unfold Bcrypt.bcryptVerify Bcrypt.bcryptHash
  simp only [dropWhile_unary]
  rw [decide_eq_decide]
  exact String.ext_iff.symm

theorem bcryptHash_ne_empty (r : Nat) (t : String) : Bcrypt.bcryptHash r t ≠ "" := by
  intro h
  exact List.cons_ne_nil _ _ (congrArg String.data h)

theorem comparePassword_hashPassword (ssalt : String) (r : Nat) (p c : String) :
    Bcrypt.comparePassword ssalt c (Bcrypt.hashPassword ssalt r p) = decide (c = p) := by
  unfold Bcrypt.comparePassword Bcrypt.hashPassword
  rw [bcryptVerify_bcryptHash, decide_eq_decide]
  constructor
  · intro h
    have hd := congrArg String.data h
    rw [String.data_append, String.data_append] at hd
    exact String.ext_iff.mpr (List.append_cancel_right hd)
  · intro h
    rw [h]

theorem encrypt_inj (key iv p1 p2 : String) :
    Aes.encrypt key iv p1 = Aes.encrypt key iv p2 ↔ p1 = p2 := by
  constructor
  · intro h
    have hd : ('A' :: 'E' :: 'S' :: ';' :: key.data) ++ (';' :: iv.data) ++
          (';' :: p1.data) =
        ('A' :: 'E' :: 'S' :: ';' :: key.data) ++ (';' :: iv.data) ++ (';' :: p2.data) :=
      congrArg String.data h
    have h1 := List.append_cancel_left hd
    have h2 : p1.data = p2.data := by injection h1
    exact String.ext_iff.mpr h2
  · intro h
    rw [h]

theorem encrypt_ne_empty (key iv p : String) : Aes.encrypt key iv p ≠ "" := by
  intro h
  exact List.cons_ne_nil _ _ (congrArg String.data h)

theorem isFalsy_eq_false {s : String} (h : s ≠ "") : isFalsy (some s) = false := by
  simp [isFalsy, h]

/-- Post-state case split for the bcrypt `authenticate`: the store either
comes back unchanged or carries exactly the single first-use UPDATE, the
latter only when the looked-up record's password column was falsy. -/
theorem bcrypt_post_state (ssalt : String) (fs : Bcrypt.Faults) (rsalt : Nat)
    (st : Store) (u p : String) :
    (Bcrypt.authenticate ssalt fs rsalt st u p).2 = st ∨
      ((Bcrypt.authenticate ssalt fs rsalt st u p).2 =
          updateUser st u (Bcrypt.hashPassword ssalt rsalt p) ∧
        ∃ r, selectUser st u = some r ∧ isFalsy r.password = true) := by
  unfold Bcrypt.authenticate
  split
  · exact Or.inl rfl
  · split
    next user heq =>
      split
      next hfal =>
        split
        · exact Or.inl rfl
        · split
          · exact Or.inl rfl
          · split
            · exact Or.inr ⟨rfl, user, heq, hfal⟩
            · split
              · exact Or.inr ⟨rfl, user, heq, hfal⟩
              · exact Or.inr ⟨rfl, user, heq, hfal⟩
      next hfal =>
        split
        · exact Or.inl rfl
        · split
          · exact Or.inl rfl
          · exact Or.inl rfl
    next heq => exact Or.inl rfl

/-- Fault-free run of the bcrypt `authenticate` against a row whose password
column is falsy: the first-use provisioning branch, ending in the single
UPDATE and a grant carrying the re-fetched permissions. -/
theorem bcrypt_provision_eq (ssalt : String) (rsalt : Nat) (st : Store) (u p : String)
    (r : Row) (hfind : selectUser st u = some r) (hfal : isFalsy r.password = true) :
    Bcrypt.authenticate ssalt Bcrypt.noFaults rsalt st u p =
      (some ⟨u, r.permissions⟩, updateUser st u (Bcrypt.hashPassword ssalt rsalt p)) := by
  have hu := selectUser_username hfind
  have hsel2 : selectUser (updateUser st u (Bcrypt.hashPassword ssalt rsalt p)) u =
      some ⟨r.username, some (Bcrypt.hashPassword ssalt rsalt p), r.permissions⟩ := by
    rw [selectUser_updateUser, hfind]; rfl
  simp [Bcrypt.authenticate, Bcrypt.noFaults, hfind, hfal, hsel2, hu]

/-- Fault-free run of the bcrypt `authenticate` against a row whose password
column holds a non-empty secret: the comparison branch. -/
theorem bcrypt_verified_eq (ssalt : String) (rsalt : Nat) (st : Store) (u p : String)
    (r : Row) (s : String) (hfind : selectUser st u = some r)
    (hpw : r.password = some s) (hne : s ≠ "") :
    Bcrypt.authenticate ssalt Bcrypt.noFaults rsalt st u p =
      (if Bcrypt.comparePassword ssalt p s then (some ⟨u, r.permissions⟩, st)
        else (none, st)) := by
  have hu := selectUser_username hfind
  simp [Bcrypt.authenticate, Bcrypt.noFaults, hfind, hpw, isFalsy_eq_false hne, hu]

/-! ### Claim theorems -/

/-- C1: for a stored record whose password column is NULL, a fault-free
`authenticate` with any password (the empty string included) derives a secret
from the password, persists it via the UPDATE for that username, and returns
`Granted{username, permissions}` with the just-fetched permissions. -/
theorem c1_first_use_provisioning (ssalt : String) (rsalt : Nat) (st : Store)
    (u p : String) (r : Row) (hfind : selectUser st u = some r)
    (habs : r.password = none) :
    Bcrypt.authenticate ssalt Bcrypt.noFaults rsalt st u p =
      (some ⟨u, r.permissions⟩, updateUser st u (Bcrypt.hashPassword ssalt rsalt p)) :=
  bcrypt_provision_eq ssalt rsalt st u p r hfind (by rw [habs]; rfl)

theorem c1_first_use_provisioning_witness :
    Bcrypt.authenticate "ss" Bcrypt.noFaults 0 [⟨"alice", none, "read"⟩] "alice"
        "hunter2" =
      (some ⟨"alice", "read"⟩,
        updateUser [⟨"alice", none, "read"⟩] "alice"
          (Bcrypt.hashPassword "ss" 0 "hunter2")) :=
  c1_first_use_provisioning "ss" 0 [⟨"alice", none, "read"⟩] "alice" "hunter2"
    ⟨"alice", none, "read"⟩ (by decide) rfl

/-- C2: for a username with no row in the store, `authenticate` returns null
under every fault schedule and every password, and `users` returns null. -/
theorem c2_no_such_user (ssalt : String) (fs : Bcrypt.Faults) (rsalt : Nat) (st : Store)
    (u p : String) (fq : Bool) (hnone : selectUser st u = none) :
    (Bcrypt.authenticate ssalt fs rsalt st u p).1 = none ∧ (users fq st u).1 = none := by
  refine ⟨?_, ?_⟩
  · cases hq : fs.q1 with
    | true => simp [Bcrypt.authenticate, hq]
    | false => simp [Bcrypt.authenticate, hq, hnone]
  · cases fq with
    | true => rfl
    | false => simp [users, hnone]

theorem c2_no_such_user_witness :
    (Bcrypt.authenticate "ss" Bcrypt.noFaults 0 [] "bob" "x").1 = none ∧
      (users false [] "bob").1 = none :=
  c2_no_such_user "ss" Bcrypt.noFaults 0 [] "bob" "x" false rfl

/-- C3: for a stored record whose secret was derived from password `p`
(under any bcrypt salt), a fault-free `authenticate` with `p` grants with the
stored permissions and returns the store unchanged — repeats do not mutate
the secret. -/
theorem c3_bound_secret_grants (ssalt : String) (rsalt0 rsalt : Nat) (st : Store)
    (u p : String) (r : Row) (hfind : selectUser st u = some r)
    (hpw : r.password = some (Bcrypt.hashPassword ssalt rsalt0 p)) :
    Bcrypt.authenticate ssalt Bcrypt.noFaults rsalt st u p =
      (some ⟨u, r.permissions⟩, st) := by
  rw [bcrypt_verified_eq ssalt rsalt st u p r _ hfind hpw (bcryptHash_ne_empty _ _)]
  rw [comparePassword_hashPassword]
  simp

theorem c3_bound_secret_grants_witness :
    Bcrypt.authenticate "ss" Bcrypt.noFaults 7
        [⟨"alice", some (Bcrypt.hashPassword "ss" 3 "pw"), "read"⟩] "alice" "pw" =
      (some ⟨"alice", "read"⟩,
        [⟨"alice", some (Bcrypt.hashPassword "ss" 3 "pw"), "read"⟩]) :=
  c3_bound_secret_grants "ss" 3 7 [⟨"alice", some (Bcrypt.hashPassword "ss" 3 "pw"), "read"⟩]
    "alice" "pw" ⟨"alice", some (Bcrypt.hashPassword "ss" 3 "pw"), "read"⟩ (by decide) rfl

/-- C4: after a first-use call binds the secret to `pw1`, a later fault-free
call with a different `pw2` is denied and the store (hence the secret) is
left exactly as the provisioning call wrote it. -/
theorem c4_secret_bound_to_first_password (ssalt : String) (rsalt1 rsalt2 : Nat)
    (st : Store) (u pw1 pw2 : String) (r : Row) (hfind : selectUser st u = some r)
    (habs : r.password = none) (hne : pw2 ≠ pw1) :
    (Bcrypt.authenticate ssalt Bcrypt.noFaults rsalt1 st u pw1).1 =
        some ⟨u, r.permissions⟩ ∧
      Bcrypt.authenticate ssalt Bcrypt.noFaults rsalt2
          (Bcrypt.authenticate ssalt Bcrypt.noFaults rsalt1 st u pw1).2 u pw2 =
        (none, (Bcrypt.authenticate ssalt Bcrypt.noFaults rsalt1 st u pw1).2) := by
  have h1 := bcrypt_provision_eq ssalt rsalt1 st u pw1 r hfind (by rw [habs]; rfl)
  refine ⟨by rw [h1], ?_⟩
  rw [h1]
  have hfind2 : selectUser (updateUser st u (Bcrypt.hashPassword ssalt rsalt1 pw1)) u =
      some ⟨r.username, some (Bcrypt.hashPassword ssalt rsalt1 pw1), r.permissions⟩ := by
    rw [selectUser_updateUser, hfind]; rfl
  rw [bcrypt_verified_eq ssalt rsalt2 _ u pw2 _ _ hfind2 rfl (bcryptHash_ne_empty _ _)]
  rw [comparePassword_hashPassword]
  simp [hne]

theorem c4_secret_bound_to_first_password_witness :
    (Bcrypt.authenticate "ss" Bcrypt.noFaults 0 [⟨"alice", none, "read"⟩] "alice"
          "hunter2").1 = some ⟨"alice", "read"⟩ ∧
      Bcrypt.authenticate "ss" Bcrypt.noFaults 1
          (Bcrypt.authenticate "ss" Bcrypt.noFaults 0 [⟨"alice", none, "read"⟩]
            "alice" "hunter2").2 "alice" "wrong" =
        (none,
          (Bcrypt.authenticate "ss" Bcrypt.noFaults 0 [⟨"alice", none, "read"⟩]
            "alice" "hunter2").2) :=
  c4_secret_bound_to_first_password "ss" 0 1 [⟨"alice", none, "read"⟩] "alice" "hunter2"
    "wrong" ⟨"alice", none, "read"⟩ (by decide) rfl (by decide)

/-- C5 counterexample: a row whose password column holds the empty string has
a present secret, yet the authentication path overwrites it, because the
source guards the provisioning branch with JavaScript truthiness
(`!user.password`), which is true for `""` as well as for NULL. -/
theorem c5_counterexample :
    (⟨"alice", some "", "read"⟩ : Row).password.isSome = true ∧
      (Bcrypt.authenticate "ss" Bcrypt.noFaults 0 [⟨"alice", some "", "read"⟩] "alice"
          "pw").2.map Row.password ≠ [some ""] := by
  decide

/-- C5 amended: in a store with unique usernames (the schema's UNIQUE
constraint), every row whose password column is present and non-empty carries
the identical secret in the post-state of any `authenticate` call, under any
fault schedule and any inputs. -/
theorem c5_present_nonempty_secret_preserved (ssalt : String) (fs : Bcrypt.Faults)
    (rsalt : Nat) (st : Store) (u p : String)
    (hnd : (st.map Row.username).Nodup) (i : Nat) (row : Row) (s : String)
    (hi : st[i]? = some row) (hs : row.password = some s) (hne : s ≠ "") :
    ∃ row', ((Bcrypt.authenticate ssalt fs rsalt st u p).2)[i]? = some row' ∧
      row'.password = some s := by
  rcases bcrypt_post_state ssalt fs rsalt st u p with h | ⟨h, r0, hr0, hfal⟩
  · exact ⟨row, by rw [h, hi], hs⟩
  · rw [h]
    have hrow_ne : row.username ≠ u := by
      intro hu
      have hmem : row ∈ st := List.mem_iff_getElem?.mpr ⟨i, hi⟩
      have hmem0 : r0 ∈ st := selectUser_mem hr0
      have hu0 : r0.username = u := selectUser_username hr0
      have he : r0 = row := List.inj_on_of_nodup_map hnd hmem0 hmem (by rw [hu0, hu])
      rw [he, hs] at hfal
      rw [isFalsy_eq_false hne] at hfal
      exact Bool.false_ne_true hfal
    refine ⟨row, ?_, hs⟩
    unfold updateUser
    rw [List.getElem?_map, hi]
    simp [hrow_ne]

theorem c5_present_nonempty_secret_preserved_witness :
    ∃ row', ((Bcrypt.authenticate "ss" Bcrypt.noFaults 0
        [⟨"alice", some "pw", "read"⟩] "alice" "x").2)[0]? = some row' ∧
      row'.password = some "pw" :=
  c5_present_nonempty_secret_preserved "ss" Bcrypt.noFaults 0
    [⟨"alice", some "pw", "read"⟩] "alice" "x" (by decide) 0
    ⟨"alice", some "pw", "read"⟩ "pw" (by decide) rfl (by decide)

/-- C6: every fault at any step of `authenticate` or `users` — either query,
the hash derivation, the comparison — resolves the call to null with no raised
exception (the embedding is total) and is never treated as a successful
match; an UPDATE that already committed before a later fault stays
committed. -/
theorem c6_fail_closed (ssalt : String) (rsalt : Nat) (st : Store) (u p : String)
    (fs : Bcrypt.Faults) (key iv : String) (fsa : Aes.Faults) :
    (fs.q1 = true → Bcrypt.authenticate ssalt fs rsalt st u p = (none, st)) ∧
      (∀ r, selectUser st u = some r → isFalsy r.password = true → fs.q1 = false →
        fs.hashFail = true → Bcrypt.authenticate ssalt fs rsalt st u p = (none, st)) ∧
      (∀ r, selectUser st u = some r → isFalsy r.password = true → fs.q1 = false →
        fs.hashFail = false → fs.q2 = true →
        Bcrypt.authenticate ssalt fs rsalt st u p = (none, st)) ∧
      (∀ r, selectUser st u = some r → isFalsy r.password = true → fs.q1 = false →
        fs.hashFail = false → fs.q2 = false → fs.q3 = true →
        Bcrypt.authenticate ssalt fs rsalt st u p =
          (none, updateUser st u (Bcrypt.hashPassword ssalt rsalt p))) ∧
      (∀ r, selectUser st u = some r → isFalsy r.password = false → fs.q1 = false →
        fs.cmp = true → Bcrypt.authenticate ssalt fs rsalt st u p = (none, st)) ∧
      users true st u = (none, st) ∧
      (fsa.q1 = true → Aes.authenticate key iv fsa st u p = (none, st)) ∧
      (∀ r, selectUser st u = some r → isFalsy r.password = true → fsa.q1 = false →
        fsa.q2 = true → Aes.authenticate key iv fsa st u p = (none, st)) ∧
      (∀ r, selectUser st u = some r → isFalsy r.password = true → fsa.q1 = false →
        fsa.q2 = false → fsa.q3 = true →
        Aes.authenticate key iv fsa st u p =
          (none, updateUser st u (Aes.encrypt key iv p))) := by
  refine ⟨?_, ?_, ?_, ?_, ?_, rfl, ?_, ?_, ?_⟩
  · intro h
    simp [Bcrypt.authenticate, h]
  · intro r hr hfal h1 h2
    simp [Bcrypt.authenticate, hr, hfal, h1, h2]
  · intro r hr hfal h1 h2 h3
    simp [Bcrypt.authenticate, hr, hfal, h1, h2, h3]
  · intro r hr hfal h1 h2 h3 h4
    simp [Bcrypt.authenticate, hr, hfal, h1, h2, h3, h4]
  · intro r hr hfal h1 h2
    simp [Bcrypt.authenticate, hr, hfal, h1, h2]
  · intro h
    simp [Aes.authenticate, h]
  · intro r hr hfal h1 h2
    simp [Aes.authenticate, hr, hfal, h1, h2]
  · intro r hr hfal h1 h2 h3
    simp [Aes.authenticate, hr, hfal, h1, h2, h3]

theorem c6_fail_closed_witness :
    Bcrypt.authenticate "ss" ⟨true, false, false, false, false⟩ 0 [] "u" "p" =
      (none, []) :=
  (c6_fail_closed "ss" 0 [] "u" "p" ⟨true, false, false, false, false⟩ "k" "i"
    ⟨false, false, false⟩).1 rfl

/-- C7: derive-then-verify round-trips for the same candidate in both
variants, and any different candidate is rejected in both variants. -/
theorem c7_derive_verify_round_trip (ssalt : String) (rsalt : Nat) (c c' : String)
    (key iv : String) (hne : c' ≠ c) :
    Bcrypt.comparePassword ssalt c (Bcrypt.hashPassword ssalt rsalt c) = true ∧
      Bcrypt.comparePassword ssalt c' (Bcrypt.hashPassword ssalt rsalt c) = false ∧
      Aes.verify key iv c (Aes.encrypt key iv c) = true ∧
      Aes.verify key iv c' (Aes.encrypt key iv c) = false := by
  refine ⟨?_, ?_, ?_, ?_⟩
  · rw [comparePassword_hashPassword]
    simp
  · rw [comparePassword_hashPassword]
    simp [hne]
  · simp [Aes.verify]
  · simp only [Aes.verify, decide_eq_false_iff_not]
    intro h
    exact hne ((encrypt_inj key iv c c').mp h).symm

theorem c7_derive_verify_round_trip_witness :
    Bcrypt.comparePassword "ss" "pw" (Bcrypt.hashPassword "ss" 0 "pw") = true ∧
      Bcrypt.comparePassword "ss" "px" (Bcrypt.hashPassword "ss" 0 "pw") = false ∧
      Aes.verify "k" "i" "pw" (Aes.encrypt "k" "i" "pw") = true ∧
      Aes.verify "k" "i" "px" (Aes.encrypt "k" "i" "pw") = false :=
  c7_derive_verify_round_trip "ss" 0 "pw" "px" "k" "i" (by decide)

/-- C8: `users` is a pure read — the store comes back untouched, a found row
yields `Some{username, permissions}`, an absent row yields `None`, and a
result is produced exactly when a row with that exact username exists. -/
theorem c8_users_pure_read (st : Store) (u : String) :
    (users false st u).2 = st ∧
      (∀ r, selectUser st u = some r →
        (users false st u).1 = some ⟨u, r.permissions⟩) ∧
      (selectUser st u = none → (users false st u).1 = none) ∧
      ((users false st u).1.isSome = true ↔ ∃ r ∈ st, r.username = u) := by
  refine ⟨?_, ?_, ?_, ?_, ?_⟩
  · cases h : selectUser st u <;> simp [users, h]
  · intro r hr
    have hu := selectUser_username hr
    simp [users, hr, hu]
  · intro h
    simp [users, h]
  · intro h
    cases hr : selectUser st u with
    | none => simp [users, hr] at h
    | some r => exact ⟨r, selectUser_mem hr, selectUser_username hr⟩
  · rintro ⟨r, hmem, hu⟩
    have hfind : (List.find? (fun r => decide (r.username = u)) st).isSome = true :=
      List.find?_isSome.mpr ⟨r, hmem, by simp [hu]⟩
    obtain ⟨r2, hr2⟩ := Option.isSome_iff_exists.mp hfind
    simp [users, show selectUser st u = some r2 from hr2]

theorem c8_users_pure_read_witness :
    (users false [⟨"alice", none, "read"⟩] "alice").1 = some ⟨"alice", "read"⟩ :=
  (c8_users_pure_read [⟨"alice", none, "read"⟩] "alice").2.1
    ⟨"alice", none, "read"⟩ (by decide)

/-- C9 counterexample: on the first-use provisioning path the stored secret
embeds the per-call random bcrypt salt (`bcrypt.genSalt`), so two runs from
the same store, username and password that draw different salts produce
different post-states. -/
theorem c9_counterexample :
    Bcrypt.authenticate "ss" Bcrypt.noFaults 0 [⟨"alice", none, "read"⟩] "alice"
        "pw" ≠
      Bcrypt.authenticate "ss" Bcrypt.noFaults 1 [⟨"alice", none, "read"⟩] "alice"
        "pw" := by
  decide

/-- C9 amended: the Granted/Denied result of the bcrypt `authenticate` is
independent of the random bcrypt salt, and the whole outcome (post-store
included) is independent of it whenever no first-use write happens: the user
is absent or the looked-up secret is already set. -/
theorem c9_result_salt_independent (ssalt : String) (fs : Bcrypt.Faults) (r1 r2 : Nat)
    (st : Store) (u p : String) :
    (Bcrypt.authenticate ssalt fs r1 st u p).1 =
        (Bcrypt.authenticate ssalt fs r2 st u p).1 ∧
      (selectUser st u = none →
        Bcrypt.authenticate ssalt fs r1 st u p =
          Bcrypt.authenticate ssalt fs r2 st u p) ∧
      (∀ r, selectUser st u = some r → isFalsy r.password = false →
        Bcrypt.authenticate ssalt fs r1 st u p =
          Bcrypt.authenticate ssalt fs r2 st u p) := by
  refine ⟨?_, ?_, ?_⟩
  · by_cases hq1 : fs.q1
    · simp [Bcrypt.authenticate, hq1]
    · cases hsel : selectUser st u with
      | none => simp [Bcrypt.authenticate, hq1, hsel]
      | some r =>
        by_cases hfal : isFalsy r.password
        · by_cases hhf : fs.hashFail
          · simp [Bcrypt.authenticate, hq1, hsel, hfal, hhf]
          · by_cases hq2 : fs.q2
            · simp [Bcrypt.authenticate, hq1, hsel, hfal, hhf, hq2]
            · by_cases hq3 : fs.q3
              · simp [Bcrypt.authenticate, hq1, hsel, hfal, hhf, hq2, hq3]
              · have e1 : selectUser (updateUser st u (Bcrypt.hashPassword ssalt r1 p)) u =
                    some ⟨r.username, some (Bcrypt.hashPassword ssalt r1 p),
                      r.permissions⟩ := by
                  rw [selectUser_updateUser, hsel]; rfl
                have e2 : selectUser (updateUser st u (Bcrypt.hashPassword ssalt r2 p)) u =
                    some ⟨r.username, some (Bcrypt.hashPassword ssalt r2 p),
                      r.permissions⟩ := by
                  rw [selectUser_updateUser, hsel]; rfl
                simp [Bcrypt.authenticate, hq1, hsel, hfal, hhf, hq2, hq3, e1, e2]
        · simp [Bcrypt.authenticate, hq1, hsel, hfal]
  · intro h
    by_cases hq1 : fs.q1 <;> simp [Bcrypt.authenticate, hq1, h]
  · intro r hr hfal
    by_cases hq1 : fs.q1 <;> simp [Bcrypt.authenticate, hq1, hr, hfal]

theorem c9_result_salt_independent_witness :
    Bcrypt.authenticate "ss" Bcrypt.noFaults 0 [] "alice" "pw" =
      Bcrypt.authenticate "ss" Bcrypt.noFaults 5 [] "alice" "pw" :=
  (c9_result_salt_independent "ss" Bcrypt.noFaults 0 5 [] "alice" "pw").2.1 rfl

/-- C10 counterexample: a looked-up record with an empty-string (present)
password column does trigger a write — same truthiness edge as C5. -/
theorem c10_counterexample :
    (⟨"bob", some "", "rw"⟩ : Row).password.isSome = true ∧
      (Bcrypt.authenticate "tt" Bcrypt.noFaults 0 [⟨"bob", some "", "rw"⟩] "bob"
          "pw").2 ≠ [⟨"bob", some "", "rw"⟩] := by
  decide

/-- C10 amended: when the looked-up record's secret is present and non-empty,
`authenticate` performs no write at all (match and mismatch branches alike);
in every case the post-store is either the pre-store or the single first-use
UPDATE, which can change only the password field of rows with the given
username, never their username, permissions, or other rows. -/
theorem c10_write_frame (ssalt : String) (fs : Bcrypt.Faults) (rsalt : Nat) (st : Store)
    (u p : String) :
    (∀ r, selectUser st u = some r → isFalsy r.password = false →
        (Bcrypt.authenticate ssalt fs rsalt st u p).2 = st) ∧
      ((Bcrypt.authenticate ssalt fs rsalt st u p).2 = st ∨
        (Bcrypt.authenticate ssalt fs rsalt st u p).2 =
          updateUser st u (Bcrypt.hashPassword ssalt rsalt p)) ∧
      (∀ (i : Nat) (r : Row), st[i]? = some r → r.username ≠ u →
        ((Bcrypt.authenticate ssalt fs rsalt st u p).2)[i]? = some r) ∧
      (∀ (i : Nat) (r : Row), st[i]? = some r →
        ∃ r2, ((Bcrypt.authenticate ssalt fs rsalt st u p).2)[i]? = some r2 ∧
          r2.username = r.username ∧ r2.permissions = r.permissions) := by
  have hps := bcrypt_post_state ssalt fs rsalt st u p
  refine ⟨?_, ?_, ?_, ?_⟩
  · intro r hr hfal
    rcases hps with h | ⟨h, r0, hr0, hfal0⟩
    · exact h
    · exfalso
      rw [hr] at hr0
      have he := Option.some.inj hr0
      rw [← he] at hfal0
      rw [hfal] at hfal0
      exact Bool.false_ne_true hfal0
  · rcases hps with h | ⟨h, _⟩
    · exact Or.inl h
    · exact Or.inr h
  · intro i r hi hne
    rcases hps with h | ⟨h, _⟩
    · rw [h, hi]
    · rw [h]
      unfold updateUser
      rw [List.getElem?_map, hi]
      simp [hne]
  · intro i r hi
    rcases hps with h | ⟨h, _⟩
    · exact ⟨r, by rw [h, hi], rfl, rfl⟩
    · rw [h]
      unfold updateUser
      rw [List.getElem?_map, hi]
      by_cases hru : r.username = u
      · exact ⟨⟨r.username, some (Bcrypt.hashPassword ssalt rsalt p), r.permissions⟩,
          by simp [hru], rfl, rfl⟩
      · exact ⟨r, by simp [hru], rfl, rfl⟩

theorem c10_write_frame_witness :
    (Bcrypt.authenticate "ss" Bcrypt.noFaults 0 [⟨"alice", some "pw", "read"⟩]
        "alice" "x").2 = [⟨"alice", some "pw", "read"⟩] :=
  (c10_write_frame "ss" Bcrypt.noFaults 0 [⟨"alice", some "pw", "read"⟩] "alice" "x").1
    ⟨"alice", some "pw", "read"⟩ (by decide) (by decide)
